import Mathlib

/-!
Verification of the storage allocation and retention core of the Recorder
program (src/recorder/main.py).

The filesystem is modelled explicitly: a `World` holds the removable-media
mount tree, the per-Recordings-directory file trees, the free bytes of each
volume root, and the process-wide rotation cursor `_current_usb_index`.
Each Python function of the core is translated into a Lean function over
`World`; raising `RuntimeError` becomes returning `Except` with the error
kind and the world at raise time (Python state persists across a raise).
-/

set_option maxHeartbeats 1000000
set_option maxRecDepth 8000

namespace Recorder

/-- A filesystem path, as its list of components (pathlib compares paths
componentwise, which is the sort order `sorted` uses on `Path` objects). -/
abbrev Path : Type := List String

/-- The `/` operator of `pathlib.Path`: append one component. -/
def pathJoin (p : Path) (s : String) : Path := p ++ [s]

/-- `Path.parent`: drop the last component. -/
def parentPath (p : Path) : Path := p.dropLast

/-- Strict code-point order on character lists: Python compares strings
lexicographically by Unicode code point. -/
def strLtB : List Char → List Char → Bool
  | [], [] => false
  | [], _ :: _ => true
  | _ :: _, [] => false
  | a :: as, b :: bs =>
    if a.toNat < b.toNat then true
    else if b.toNat < a.toNat then false
    else strLtB as bs

/-- Python's `<` on strings. -/
def strLt (a b : String) : Bool := strLtB a.data b.data

/-- Python's `str.startswith(pre)`. -/
def strStartsWith (s pre : String) : Bool := pre.data.isPrefixOf s.data

/-- Componentwise lexicographic order on paths, the order `sorted` uses. -/
def pathLe : Path → Path → Bool
  | [], _ => true
  | _ :: _, [] => false
  | a :: as, b :: bs => if strLt a b then true else if strLt b a then false else pathLe as bs

/-- Insert a path into a sorted list of paths. -/
def insertPath (x : Path) : List Path → List Path
  | [] => [x]
  | y :: ys => if pathLe x y then x :: y :: ys else y :: insertPath x ys

/-- Insertion sort by `pathLe`; embeds Python's `sorted` on paths. -/
def sortPaths : List Path → List Path
  | [] => []
  | x :: xs => insertPath x (sortPaths xs)

/-- A regular file inside a date folder: its directory-entry name, whether it
is a regular file, its `.suffix`, its `st_mtime`, its `st_size` in bytes, and
whether `stat`/`unlink` on it succeeds (`deletable = false` models the
`OSError`/`PermissionError` branch of the delete step). -/
structure RecFile where
  name : String
  isFile : Bool
  suffix : String
  mtime : ℚ
  size : ℕ
  deletable : Bool
deriving DecidableEq, Repr

/-- A date-bucket folder inside a Recordings directory, in directory-listing
order; `readable = false` models `iterdir` raising for this folder. -/
structure DateFolder where
  name : String
  isDir : Bool
  readable : Bool
  files : List RecFile
deriving DecidableEq, Repr

/-- One Recordings directory tree: whether the directory exists, whether its
`iterdir` succeeds, and its date folders in directory-listing order. -/
structure RecTree where
  pathExists : Bool
  readable : Bool
  folders : List DateFolder
deriving DecidableEq, Repr

/-- A candidate device directory under a per-user mount directory. -/
structure DeviceDir where
  name : String
  isDir : Bool
  writable : Bool
deriving DecidableEq, Repr

/-- A per-user directory under the mount root; `readable = false` models
`iterdir` raising `PermissionError` for this user directory. -/
structure UserDir where
  name : String
  isDir : Bool
  readable : Bool
  devices : List DeviceDir
deriving DecidableEq, Repr

/-- The configuration constants of `CONFIG` used by the storage core. -/
structure Config where
  recordingsDir : Path
  minFreeSpaceGb : ℚ
  usbMountPath : Path
deriving DecidableEq, Repr

/-- The world a call runs in: the mount tree under `usb_mount_path`, the
Recordings trees keyed by their directory path, the free bytes keyed by
volume root path (`shutil.disk_usage(p).free`), and the module-global
rotation cursor `_current_usb_index`. -/
structure World where
  mountExists : Bool
  mountReadable : Bool
  users : List UserDir
  trees : List (Path × RecTree)
  free : List (Path × ℕ)
  cursor : ℕ
deriving DecidableEq, Repr

/-- `get_usb_devices`: scan the mount root two levels deep, skip hidden and
non-directory entries, keep writable device directories, swallow permission
errors per subtree, and return the result sorted. -/
def get_usb_devices (cfg : Config) (w : World) : List Path :=
  if !w.mountExists then []
  else if !w.mountReadable then sortPaths []
  else
    sortPaths
      (((w.users.filter (fun u => u.isDir && !(strStartsWith u.name "."))).map
        (fun u =>
          if u.readable then
            (u.devices.filter
              (fun d => d.isDir && !(strStartsWith d.name ".") && d.writable)).map
              (fun d => pathJoin (pathJoin cfg.usbMountPath u.name) d.name)
          else [])).flatten)

/-- Association lookup for free bytes; an unknown path reports zero free. -/
def assocFree : List (Path × ℕ) → Path → ℕ
  | [], _ => 0
  | e :: fs, p => if e.1 = p then e.2 else assocFree fs p

/-- `shutil.disk_usage(path).free` in bytes. -/
def diskFree (w : World) (p : Path) : ℕ := assocFree w.free p

/-- `get_available_space_gb`: `stat.free / (1024**3)` — a fractional
quotient, not an integer number of bytes. -/
def get_available_space_gb (w : World) (p : Path) : ℚ :=
  (diskFree w p : ℚ) / (1024 ^ 3 : ℚ)

/-- `is_device_full`: strict comparison of the GB quotient with the
threshold. -/
def is_device_full (w : World) (p : Path) (minSpaceGb : ℚ) : Bool :=
  decide (get_available_space_gb w p < minSpaceGb)

/-- `get_all_recording_dirs`: the removable volumes' Recordings directories
(in sorted order), then the primary recordings directory. -/
def get_all_recording_dirs (cfg : Config) (w : World) : List Path :=
  (get_usb_devices cfg w).map (fun d => pathJoin d "Recordings") ++ [cfg.recordingsDir]

/-- A file located in the world: the Recordings directory it is under, its
date-folder name, and the file record.  Its full path is
`dir ++ [folder, file.name]`. -/
structure FileRef where
  dir : Path
  folder : String
  file : RecFile
deriving DecidableEq, Repr

/-- Association lookup in the Recordings-tree catalog. -/
def assocTree : List (Path × RecTree) → Path → Option RecTree
  | [], _ => none
  | e :: ts, p => if e.1 = p then some e.2 else assocTree ts p

/-- The tree at a path; a path with no catalog entry does not exist. -/
def lookupTree (w : World) (p : Path) : RecTree :=
  (assocTree w.trees p).getD ⟨false, true, []⟩

/-- One update step of the `(oldest_file, oldest_time)` pair of
`find_oldest_recording`: take the new file when no candidate exists yet or
when its mtime is strictly smaller. -/
def oldStep (acc : Option (FileRef × ℚ)) (r : FileRef) : Option (FileRef × ℚ) :=
  match acc with
  | none => some (r, r.file.mtime)
  | some pr => if r.file.mtime < pr.2 then some (r, r.file.mtime) else some pr

/-- The body of the innermost loop of `find_oldest_recording`: consider a
directory entry only when it is a regular file with suffix `.h264`. -/
def fileStep (dir : Path) (fname : String) (acc : Option (FileRef × ℚ)) (f : RecFile) :
    Option (FileRef × ℚ) :=
  if f.isFile && (f.suffix == ".h264") then oldStep acc ⟨dir, fname, f⟩ else acc

/-- The date-folder loop of `find_oldest_recording`: skip non-directories,
treat an unreadable folder as empty. -/
def foldFolder (dir : Path) (acc : Option (FileRef × ℚ)) (fo : DateFolder) :
    Option (FileRef × ℚ) :=
  if fo.isDir then
    if fo.readable then fo.files.foldl (fileStep dir fo.name) acc else acc
  else acc

/-- The per-Recordings-directory loop of `find_oldest_recording`: skip a
directory that does not exist, treat an unreadable one as empty. -/
def foldDir (w : World) (acc : Option (FileRef × ℚ)) (dir : Path) : Option (FileRef × ℚ) :=
  let t := lookupTree w dir
  if t.pathExists then
    if t.readable then t.folders.foldl (foldFolder dir) acc else acc
  else acc

/-- `find_oldest_recording`: scan every catalogued Recordings tree and keep
the file with the strictly smallest mtime seen so far. -/
def find_oldest_recording (cfg : Config) (w : World) : Option FileRef :=
  ((get_all_recording_dirs cfg w).foldl (foldDir w) none).map Prod.fst

/-- The eligible files of one date folder, in directory-listing order. -/
def folderFiles (dir : Path) (fo : DateFolder) : List FileRef :=
  if fo.isDir && fo.readable then
    (fo.files.filter (fun f => f.isFile && (f.suffix == ".h264"))).map
      (fun f => (⟨dir, fo.name, f⟩ : FileRef))
  else []

/-- The eligible files of one Recordings directory, in listing order. -/
def dirFiles (w : World) (dir : Path) : List FileRef :=
  let t := lookupTree w dir
  if t.pathExists && t.readable then (t.folders.map (folderFiles dir)).flatten else []

/-- The whole cross-volume scan of `find_oldest_recording`, as the flat list
of eligible files in scan order: volume-catalog order, then listing order. -/
def scanFiles (cfg : Config) (w : World) : List FileRef :=
  ((get_all_recording_dirs cfg w).map (dirFiles w)).flatten

/-- The part of the scan that lies on removable volumes (it precedes the
primary directory's part in scan order). -/
def removableScanFiles (cfg : Config) (w : World) : List FileRef :=
  (((get_usb_devices cfg w).map (fun d => pathJoin d "Recordings")).map (dirFiles w)).flatten

/-- Remove the referenced file from a date folder with the matching name. -/
def eraseFromFolder (fo : DateFolder) (r : FileRef) : DateFolder :=
  if fo.name = r.folder then { fo with files := fo.files.erase r.file } else fo

/-- Remove the referenced file from a Recordings tree. -/
def eraseFromTree (t : RecTree) (r : FileRef) : RecTree :=
  { t with folders := t.folders.map (fun fo => eraseFromFolder fo r) }

/-- Credit reclaimed bytes to a volume root after a deletion. -/
def addFree : List (Path × ℕ) → Path → ℕ → List (Path × ℕ)
  | [], _, _ => []
  | e :: fs, p, n =>
    if e.1 = p then (e.1, e.2 + n) :: addFree fs p n else e :: addFree fs p n

/-- `oldest_file.unlink()`: remove the file from its tree and credit its
size to the volume root containing its Recordings directory. -/
def unlink (w : World) (r : FileRef) : World :=
  { w with
    trees := w.trees.map (fun e => if e.1 = r.dir then (e.1, eraseFromTree e.2 r) else e),
    free := addFree w.free (parentPath r.dir) r.file.size }

/-- Number of files in one Recordings tree. -/
def treeCount (t : RecTree) : ℕ := (t.folders.map (fun fo => fo.files.length)).sum

/-- Total number of files catalogued in the world; the retention loop's
termination measure. -/
def countTotal (w : World) : ℕ := (w.trees.map (fun e => treeCount e.2)).sum

/-- The two `RuntimeError` kinds of `free_up_space`. -/
inductive RecErr where
  | insufficientStorage
  | deleteFailure
deriving DecidableEq, Repr

/-- The `while` loop of `free_up_space`, with explicit fuel; `none` means
the fuel ran out (shown impossible for fuel above the total file count).
An error carries the world at raise time. -/
def free_up_spaceFuel (cfg : Config) :
    ℕ → World → Path → ℚ → Option (Except (RecErr × World) World)
  | 0, _, _, _ => none
  | fuel + 1, w, target, minGb =>
    if is_device_full w target minGb then
      match find_oldest_recording cfg w with
      | none => some (Except.error (RecErr.insufficientStorage, w))
      | some r =>
        if r.file.deletable then free_up_spaceFuel cfg fuel (unlink w r) target minGb
        else some (Except.error (RecErr.deleteFailure, w))
    else some (Except.ok w)

/-- `free_up_space`: run the loop with sufficient fuel (one more than the
total number of catalogued files; each iteration deletes one file). -/
def free_up_space (cfg : Config) (w : World) (target : Path) (minGb : ℚ) :
    Except (RecErr × World) World :=
  (free_up_spaceFuel cfg (countTotal w + 1) w target minGb).getD
    (Except.error (RecErr.insufficientStorage, w))

/-- `_current_usb_index += 1`. -/
def advanceCursor (w : World) : World := { w with cursor := w.cursor + 1 }

/-- `get_next_recording_dir`: with removable volumes present, select the one
at `cursor % count`, enforce retention on it when it is full, advance the
cursor and return its Recordings directory; otherwise enforce retention on
the primary volume's parent and return the primary recordings directory. -/
def get_next_recording_dir (cfg : Config) (w : World) :
    Except (RecErr × World) (Path × World) :=
  let usb := get_usb_devices cfg w
  if hne : 0 < usb.length then
    let dev := usb.get ⟨w.cursor % usb.length, Nat.mod_lt _ hne⟩
    if is_device_full w dev cfg.minFreeSpaceGb then
      match free_up_space cfg w dev cfg.minFreeSpaceGb with
      | Except.error ew => Except.error ew
      | Except.ok w2 => Except.ok (pathJoin dev "Recordings", advanceCursor w2)
    else Except.ok (pathJoin dev "Recordings", advanceCursor w)
  else
    if is_device_full w (parentPath cfg.recordingsDir) cfg.minFreeSpaceGb then
      match free_up_space cfg w (parentPath cfg.recordingsDir) cfg.minFreeSpaceGb with
      | Except.error ew => Except.error ew
      | Except.ok w2 => Except.ok (cfg.recordingsDir, w2)
    else Except.ok (cfg.recordingsDir, w)

/-- Whether an allocation call returned a directory. -/
def isOkResult : Except (RecErr × World) (Path × World) → Bool
  | Except.ok _ => true
  | Except.error _ => false

/-- The value of `_current_usb_index` after an allocation call (on an error
the module global keeps the value it had when the exception was raised). -/
def cursorAfter : Except (RecErr × World) (Path × World) → ℕ
  | Except.ok pr => pr.2.cursor
  | Except.error ew => ew.2.cursor

/-- `n` consecutive allocation calls; `none` as soon as one of them fails,
otherwise the returned directories in order and the final world. -/
def allocRun (cfg : Config) : ℕ → World → Option (List Path × World)
  | 0, w => some ([], w)
  | n + 1, w =>
    match get_next_recording_dir cfg w with
    | Except.error _ => none
    | Except.ok pw => (allocRun cfg n pw.2).map (fun pr => (pw.1 :: pr.1, pr.2))

/-- The survivor of a left-to-right minimum scan started at `b`: replaced
only by a strictly smaller mtime, so ties keep the earlier file. -/
def runBest (b : FileRef) : List FileRef → FileRef
  | [] => b
  | r :: t => if r.file.mtime < b.file.mtime then runBest r t else runBest b t

/-- The oldest file of a scan list, ties broken by first encounter. -/
def listOldest : List FileRef → Option FileRef
  | [] => none
  | r :: t => some (runBest r t)

lemma foldl_fileStep_eq (dir : Path) (fname : String) (fs : List RecFile) :
    ∀ acc, fs.foldl (fileStep dir fname) acc =
      ((fs.filter (fun f => f.isFile && (f.suffix == ".h264"))).map
        (fun f => (⟨dir, fname, f⟩ : FileRef))).foldl oldStep acc := by
  induction fs with
  | nil => intro acc; rfl
  | cons f fs ih =>
    intro acc
    by_cases h : (f.isFile && (f.suffix == ".h264")) = true
    · simp only [List.foldl_cons, fileStep, h, if_true, List.filter_cons, List.map_cons]
      exact ih _
    · rw [Bool.not_eq_true] at h
      simp only [List.foldl_cons, fileStep, h, Bool.false_eq_true, if_false, List.filter_cons]
      exact ih _

lemma foldFolder_eq (dir : Path) (fo : DateFolder) (acc : Option (FileRef × ℚ)) :
    foldFolder dir acc fo = (folderFiles dir fo).foldl oldStep acc := by
  unfold foldFolder folderFiles
  by_cases hd : fo.isDir = true
  · by_cases hr : fo.readable = true
    · simp only [hd, hr, if_true, Bool.and_self]
      exact foldl_fileStep_eq dir fo.name fo.files acc
    · rw [Bool.not_eq_true] at hr
      simp [hd, hr]
  · rw [Bool.not_eq_true] at hd
    simp [hd]

lemma foldl_folders (dir : Path) (fos : List DateFolder) :
    ∀ acc, fos.foldl (foldFolder dir) acc =
      ((fos.map (folderFiles dir)).flatten).foldl oldStep acc := by
  induction fos with
  | nil => intro acc; rfl
  | cons fo fos ih =>
    intro acc
    simp only [List.foldl_cons, List.map_cons, List.flatten_cons, List.foldl_append]
    rw [foldFolder_eq, ih]

lemma foldDir_eq (w : World) (dir : Path) (acc : Option (FileRef × ℚ)) :
    foldDir w acc dir = (dirFiles w dir).foldl oldStep acc := by
  unfold foldDir dirFiles
  by_cases he : (lookupTree w dir).pathExists = true
  · by_cases hr : (lookupTree w dir).readable = true
    · simp only [he, hr, if_true, Bool.and_self]
      exact foldl_folders dir (lookupTree w dir).folders acc
    · rw [Bool.not_eq_true] at hr
      simp [he, hr]
  · rw [Bool.not_eq_true] at he
    simp [he]

lemma foldl_dirs (w : World) (dirs : List Path) :
    ∀ acc, dirs.foldl (foldDir w) acc =
      ((dirs.map (dirFiles w)).flatten).foldl oldStep acc := by
  induction dirs with
  | nil => intro acc; rfl
  | cons d dirs ih =>
    intro acc
    simp only [List.foldl_cons, List.map_cons, List.flatten_cons, List.foldl_append]
    rw [foldDir_eq, ih]

lemma foldl_oldStep_some (t : List FileRef) :
    ∀ b : FileRef, t.foldl oldStep (some (b, b.file.mtime)) =
      some (runBest b t, (runBest b t).file.mtime) := by
  induction t with
  | nil => intro b; rfl
  | cons r t ih =>
    intro b
    simp only [List.foldl_cons, oldStep, runBest]
    by_cases h : r.file.mtime < b.file.mtime
    · rw [if_pos h, if_pos h, ih]
    · rw [if_neg h, if_neg h, ih]

lemma listOldest_eq_foldl (l : List FileRef) :
    l.foldl oldStep none = (listOldest l).map (fun r => (r, r.file.mtime)) := by
  cases l with
  | nil => rfl
  | cons r t =>
    simp only [List.foldl_cons, oldStep, listOldest, Option.map_some]
    exact foldl_oldStep_some t r

lemma find_oldest_eq (cfg : Config) (w : World) :
    find_oldest_recording cfg w = listOldest (scanFiles cfg w) := by
  unfold find_oldest_recording scanFiles
  rw [foldl_dirs, listOldest_eq_foldl]
  cases listOldest ((List.map (dirFiles w) (get_all_recording_dirs cfg w)).flatten) <;> rfl

lemma runBest_spec (t : List FileRef) :
    ∀ b : FileRef, ∃ pre post, b :: t = pre ++ runBest b t :: post ∧
      (∀ s ∈ pre, (runBest b t).file.mtime < s.file.mtime) ∧
      (∀ s ∈ b :: t, (runBest b t).file.mtime ≤ s.file.mtime) := by
  induction t with
  | nil =>
    intro b
    refine ⟨[], [], rfl, by simp, ?_⟩
    intro s hs
    simp only [List.mem_singleton] at hs
    simp [hs, runBest]
  | cons r t ih =>
    intro b
    by_cases h : r.file.mtime < b.file.mtime
    · obtain ⟨pre, post, hdec, hpre, hmin⟩ := ih r
      have hrb : runBest b (r :: t) = runBest r t := by rw [runBest, if_pos h]
      have hlt : (runBest r t).file.mtime < b.file.mtime :=
        lt_of_le_of_lt (hmin r (List.mem_cons_self r t)) h
      refine ⟨b :: pre, post, ?_, ?_, ?_⟩
      · rw [hrb, List.cons_append, ← hdec]
      · intro s hs
        rw [hrb]
        rcases List.mem_cons.mp hs with hsb | hsp
        · rw [hsb]; exact hlt
        · exact hpre s hsp
      · intro s hs
        rw [hrb]
        rcases List.mem_cons.mp hs with hsb | hst
        · rw [hsb]; exact le_of_lt hlt
        · exact hmin s hst
    · obtain ⟨pre, post, hdec, hpre, hmin⟩ := ih b
      have hrb : runBest b (r :: t) = runBest b t := by rw [runBest, if_neg h]
      have hble : b.file.mtime ≤ r.file.mtime := le_of_not_lt h
      cases pre with
      | nil =>
        simp only [List.nil_append] at hdec
        have hb : runBest b t = b := (List.cons.injEq _ _ _ _ ▸ hdec).1.symm
        have hp : t = post := (List.cons.injEq _ _ _ _ ▸ hdec).2
        refine ⟨[], r :: post, ?_, by simp, ?_⟩
        · rw [hrb, hb, List.nil_append, hp]
        · intro s hs
          rw [hrb, hb]
          rcases List.mem_cons.mp hs with hsb | hs'
          · rw [hsb]
          · rcases List.mem_cons.mp hs' with hsr | hst
            · rw [hsr]; exact hble
            · have := hmin s (List.mem_cons_of_mem b hst)
              rw [hb] at this; exact this
      | cons p pre' =>
        have hpb : p = b := ((List.cons.injEq _ _ _ _).mp hdec).1.symm
        have hteq : t = pre' ++ runBest b t :: post := ((List.cons.injEq _ _ _ _).mp hdec).2
        have hltb : (runBest b t).file.mtime < b.file.mtime := by
          have := hpre p (List.mem_cons_self p pre')
          rw [hpb] at this; exact this
        refine ⟨b :: r :: pre', post, ?_, ?_, ?_⟩
        · rw [hrb, List.cons_append, List.cons_append, ← hteq]
        · intro s hs
          rw [hrb]
          rcases List.mem_cons.mp hs with hsb | hs'
          · rw [hsb]; exact hltb
          · rcases List.mem_cons.mp hs' with hsr | hsp
            · rw [hsr]; exact lt_of_lt_of_le hltb hble
            · exact hpre s (List.mem_cons_of_mem p hsp)
        · intro s hs
          rw [hrb]
          rcases List.mem_cons.mp hs with hsb | hs'
          · rw [hsb]; exact le_of_lt hltb
          · rcases List.mem_cons.mp hs' with hsr | hst
            · rw [hsr]; exact le_of_lt (lt_of_lt_of_le hltb hble)
            · exact hmin s (List.mem_cons_of_mem b hst)

/-- Decomposition of a nonempty scan around its oldest file: everything
before it is strictly younger, and it is a global minimum. -/
lemma listOldest_spec (l : List FileRef) (q : FileRef) (h : listOldest l = some q) :
    ∃ pre post, l = pre ++ q :: post ∧
      (∀ s ∈ pre, q.file.mtime < s.file.mtime) ∧
      (∀ s ∈ l, q.file.mtime ≤ s.file.mtime) := by
  cases l with
  | nil => exact absurd h (by simp [listOldest])
  | cons r t =>
    have hq : runBest r t = q := by
      simpa [listOldest] using h
    obtain ⟨pre, post, hdec, hpre, hmin⟩ := runBest_spec t r
    rw [hq] at hdec hpre hmin
    exact ⟨pre, post, hdec, hpre, hmin⟩

lemma scan_split (cfg : Config) (w : World) :
    scanFiles cfg w = removableScanFiles cfg w ++ dirFiles w cfg.recordingsDir := by
  unfold scanFiles removableScanFiles get_all_recording_dirs
  rw [List.map_append, List.flatten_append]
  simp

lemma mem_dirFiles (w : World) (dir : Path) (r : FileRef) (h : r ∈ dirFiles w dir) :
    r.dir = dir ∧ (lookupTree w dir).pathExists = true ∧
      ∃ fo ∈ (lookupTree w dir).folders, fo.name = r.folder ∧ r.file ∈ fo.files := by
  unfold dirFiles at h
  by_cases hc : ((lookupTree w dir).pathExists && (lookupTree w dir).readable) = true
  · rw [if_pos hc] at h
    obtain ⟨l, hl, hrl⟩ := List.mem_flatten.mp h
    obtain ⟨fo, hfo, rfl⟩ := List.mem_map.mp hl
    unfold folderFiles at hrl
    by_cases hg : (fo.isDir && fo.readable) = true
    · rw [if_pos hg] at hrl
      obtain ⟨f, hf, rfl⟩ := List.mem_map.mp hrl
      exact ⟨rfl, (Bool.and_eq_true _ _).mp hc |>.1, fo, hfo, rfl, (List.mem_filter.mp hf).1⟩
    · rw [if_neg hg] at hrl
      exact absurd hrl (List.not_mem_nil _)
  · rw [if_neg hc] at h
    exact absurd h (List.not_mem_nil _)

lemma mem_scanFiles_located (cfg : Config) (w : World) (r : FileRef)
    (h : r ∈ scanFiles cfg w) :
    ∃ t, assocTree w.trees r.dir = some t ∧
      ∃ fo ∈ t.folders, fo.name = r.folder ∧ r.file ∈ fo.files := by
  unfold scanFiles at h
  obtain ⟨l, hl, hrl⟩ := List.mem_flatten.mp h
  obtain ⟨dir, _, rfl⟩ := List.mem_map.mp hl
  obtain ⟨hrdir, hex, fo, hfo, hname, hfile⟩ := mem_dirFiles w dir r hrl
  subst hrdir
  cases ha : assocTree w.trees r.dir with
  | none =>
    exfalso
    unfold lookupTree at hex
    rw [ha] at hex
    simp at hex
  | some t =>
    unfold lookupTree at hfo
    rw [ha] at hfo
    exact ⟨t, rfl, fo, hfo, hname, hfile⟩

lemma sum_map_lt {α : Type} (l : List α) (f g : α → ℕ)
    (hle : ∀ x ∈ l, f x ≤ g x) (x₀ : α) (hmem : x₀ ∈ l) (hlt : f x₀ < g x₀) :
    (l.map f).sum < (l.map g).sum := by
  induction l with
  | nil => exact absurd hmem (List.not_mem_nil _)
  | cons a l ih =>
    simp only [List.map_cons, List.sum_cons]
    rcases List.mem_cons.mp hmem with rfl | hmem'
    · have htail : (l.map f).sum ≤ (l.map g).sum :=
        List.sum_le_sum (fun x hx => hle x (List.mem_cons_of_mem _ hx))
      exact add_lt_add_of_lt_of_le hlt htail
    · have hf : f a ≤ g a := hle a (List.mem_cons_self a l)
      have htail := ih (fun x hx => hle x (List.mem_cons_of_mem _ hx)) hmem'
      exact add_lt_add_of_le_of_lt hf htail

lemma length_eraseFromFolder_le (fo : DateFolder) (r : FileRef) :
    (eraseFromFolder fo r).files.length ≤ fo.files.length := by
  unfold eraseFromFolder
  by_cases h : fo.name = r.folder
  · rw [if_pos h]
    exact (List.erase_sublist r.file fo.files).length_le
  · rw [if_neg h]

lemma treeCount_erase_le (t : RecTree) (r : FileRef) :
    treeCount (eraseFromTree t r) ≤ treeCount t := by
  unfold treeCount eraseFromTree
  simp only [List.map_map, Function.comp]
  exact List.sum_le_sum (fun fo _ => length_eraseFromFolder_le fo r)

lemma treeCount_erase_lt (t : RecTree) (r : FileRef) (fo : DateFolder)
    (hfo : fo ∈ t.folders) (hname : fo.name = r.folder) (hf : r.file ∈ fo.files) :
    treeCount (eraseFromTree t r) < treeCount t := by
  unfold treeCount eraseFromTree
  simp only [List.map_map, Function.comp]
  apply sum_map_lt t.folders _ _ (fun x _ => length_eraseFromFolder_le x r) fo hfo
  unfold eraseFromFolder
  rw [if_pos hname]
  show (fo.files.erase r.file).length < fo.files.length
  have h1 : (fo.files.erase r.file).length = fo.files.length - 1 :=
    List.length_erase_of_mem hf
  have h2 : 0 < fo.files.length := List.length_pos.mpr (List.ne_nil_of_mem hf)
  omega

lemma countTotal_erase_lt (r : FileRef) (ts : List (Path × RecTree)) :
    ∀ t : RecTree, assocTree ts r.dir = some t →
      (∃ fo ∈ t.folders, fo.name = r.folder ∧ r.file ∈ fo.files) →
      ((ts.map (fun e => if e.1 = r.dir then (e.1, eraseFromTree e.2 r) else e)).map
        (fun e => treeCount e.2)).sum < (ts.map (fun e => treeCount e.2)).sum := by
  induction ts with
  | nil =>
    intro t ht _
    exact absurd ht (by simp [assocTree])
  | cons e ts ih =>
    intro t ht hfo
    by_cases he : e.1 = r.dir
    · have ht2 : t = e.2 := by
        unfold assocTree at ht
        rw [if_pos he] at ht
        exact (Option.some.injEq _ _ ▸ ht).symm
      simp only [List.map_cons, List.sum_cons, if_pos he]
      obtain ⟨fo, hfo', hname, hfile⟩ := hfo
      have hhead : treeCount (eraseFromTree e.2 r) < treeCount e.2 :=
        treeCount_erase_lt e.2 r fo (ht2 ▸ hfo') hname hfile
      have htail :
          ((ts.map (fun e => if e.1 = r.dir then (e.1, eraseFromTree e.2 r) else e)).map
            (fun e => treeCount e.2)).sum ≤ (ts.map (fun e => treeCount e.2)).sum := by
        rw [List.map_map]
        apply List.sum_le_sum
        intro x _
        by_cases hx : x.1 = r.dir
        · simp only [Function.comp, if_pos hx]
          exact treeCount_erase_le _ _
        · simp [Function.comp, if_neg hx]
      exact add_lt_add_of_lt_of_le hhead htail
    · unfold assocTree at ht
      rw [if_neg he] at ht
      simp only [List.map_cons, List.sum_cons, if_neg he]
      exact Nat.add_lt_add_left (ih t ht hfo) _

lemma countTotal_unlink_lt (w : World) (r : FileRef) (t : RecTree)
    (ht : assocTree w.trees r.dir = some t)
    (hfo : ∃ fo ∈ t.folders, fo.name = r.folder ∧ r.file ∈ fo.files) :
    countTotal (unlink w r) < countTotal w :=
  countTotal_erase_lt r w.trees t ht hfo

lemma find_oldest_mem_scan (cfg : Config) (w : World) (r : FileRef)
    (h : find_oldest_recording cfg w = some r) : r ∈ scanFiles cfg w := by
  rw [find_oldest_eq] at h
  obtain ⟨pre, post, hdec, _, _⟩ := listOldest_spec _ _ h
  rw [hdec]
  exact List.mem_append_right _ (List.mem_cons_self _ _)

lemma countTotal_unlink_of_found (cfg : Config) (w : World) (r : FileRef)
    (h : find_oldest_recording cfg w = some r) :
    countTotal (unlink w r) < countTotal w := by
  obtain ⟨t, ht, hfo⟩ :=
    mem_scanFiles_located cfg w r (find_oldest_mem_scan cfg w r h)
  exact countTotal_unlink_lt w r t ht hfo

lemma fuel_some (cfg : Config) :
    ∀ (fuel : ℕ) (w : World) (target : Path) (minGb : ℚ), countTotal w < fuel →
      ∃ res, free_up_spaceFuel cfg fuel w target minGb = some res := by
  intro fuel
  induction fuel with
  | zero => intro w _ _ h; exact absurd h (Nat.not_lt_zero _)
  | succ fuel ih =>
    intro w target minGb h
    unfold free_up_spaceFuel
    by_cases hfull : is_device_full w target minGb = true
    · rw [if_pos hfull]
      cases hfind : find_oldest_recording cfg w with
      | none => exact ⟨_, rfl⟩
      | some r =>
        dsimp only
        by_cases hdel : r.file.deletable = true
        · rw [if_pos hdel]
          apply ih
          have := countTotal_unlink_of_found cfg w r hfind
          omega
        · rw [if_neg hdel]
          exact ⟨_, rfl⟩
    · rw [if_neg hfull]
      exact ⟨_, rfl⟩

lemma fuel_ok_not_full (cfg : Config) :
    ∀ (fuel : ℕ) (w : World) (target : Path) (minGb : ℚ) (w2 : World),
      free_up_spaceFuel cfg fuel w target minGb = some (Except.ok w2) →
      is_device_full w2 target minGb = false := by
  intro fuel
  induction fuel with
  | zero =>
    intro w target minGb w2 h
    exact absurd h (by simp [free_up_spaceFuel])
  | succ fuel ih =>
    intro w target minGb w2 h
    unfold free_up_spaceFuel at h
    by_cases hfull : is_device_full w target minGb = true
    · rw [if_pos hfull] at h
      cases hfind : find_oldest_recording cfg w with
      | none => rw [hfind] at h; simp at h
      | some r =>
        rw [hfind] at h
        dsimp only at h
        by_cases hdel : r.file.deletable = true
        · rw [if_pos hdel] at h
          exact ih _ _ _ _ h
        · rw [if_neg hdel] at h
          simp at h
    · rw [if_neg hfull] at h
      simp only [Option.some.injEq, Except.ok.injEq] at h
      rw [← h]
      simpa using hfull

/-- The fields of the world that `get_usb_devices` reads. -/
def sameMount (a b : World) : Prop :=
  a.mountExists = b.mountExists ∧ a.mountReadable = b.mountReadable ∧ a.users = b.users

lemma sameMount_refl (a : World) : sameMount a a := ⟨rfl, rfl, rfl⟩

lemma sameMount_trans {a b c : World} (h1 : sameMount a b) (h2 : sameMount b c) :
    sameMount a c :=
  ⟨h1.1.trans h2.1, h1.2.1.trans h2.2.1, h1.2.2.trans h2.2.2⟩

lemma unlink_sameMount (w : World) (r : FileRef) : sameMount (unlink w r) w :=
  ⟨rfl, rfl, rfl⟩

lemma fuel_preserves (cfg : Config) :
    ∀ (fuel : ℕ) (w : World) (target : Path) (minGb : ℚ)
      (res : Except (RecErr × World) World),
      free_up_spaceFuel cfg fuel w target minGb = some res →
      (∀ w2, res = Except.ok w2 → sameMount w2 w ∧ w2.cursor = w.cursor) ∧
      (∀ e we, res = Except.error (e, we) → sameMount we w ∧ we.cursor = w.cursor) := by
  intro fuel
  induction fuel with
  | zero =>
    intro w target minGb res h
    exact absurd h (by simp [free_up_spaceFuel])
  | succ fuel ih =>
    intro w target minGb res h
    unfold free_up_spaceFuel at h
    by_cases hfull : is_device_full w target minGb = true
    · rw [if_pos hfull] at h
      cases hfind : find_oldest_recording cfg w with
      | none =>
        rw [hfind] at h
        simp only [Option.some.injEq] at h
        subst h
        exact ⟨fun w2 hw2 => by simp at hw2,
          fun e we hewe => by
            simp only [Except.error.injEq, Prod.mk.injEq] at hewe
            rw [← hewe.2]
            exact ⟨sameMount_refl w, rfl⟩⟩
      | some r =>
        rw [hfind] at h
        dsimp only at h
        by_cases hdel : r.file.deletable = true
        · rw [if_pos hdel] at h
          have hrec := ih (unlink w r) target minGb res h
          refine ⟨fun w2 hw2 => ?_, fun e we hewe => ?_⟩
          · obtain ⟨hm, hc⟩ := hrec.1 w2 hw2
            exact ⟨sameMount_trans hm (unlink_sameMount w r), hc⟩
          · obtain ⟨hm, hc⟩ := hrec.2 e we hewe
            exact ⟨sameMount_trans hm (unlink_sameMount w r), hc⟩
        · rw [if_neg hdel] at h
          simp only [Option.some.injEq] at h
          subst h
          exact ⟨fun w2 hw2 => by simp at hw2,
            fun e we hewe => by
              simp only [Except.error.injEq, Prod.mk.injEq] at hewe
              rw [← hewe.2]
              exact ⟨sameMount_refl w, rfl⟩⟩
    · rw [if_neg hfull] at h
      simp only [Option.some.injEq] at h
      subst h
      exact ⟨fun w2 hw2 => by
          simp only [Except.ok.injEq] at hw2
          rw [← hw2]
          exact ⟨sameMount_refl w, rfl⟩,
        fun e we hewe => by simp at hewe⟩

lemma free_up_space_eq (cfg : Config) (w : World) (target : Path) (minGb : ℚ) :
    free_up_spaceFuel cfg (countTotal w + 1) w target minGb =
      some (free_up_space cfg w target minGb) := by
  obtain ⟨res, hres⟩ := fuel_some cfg (countTotal w + 1) w target minGb (Nat.lt_succ_self _)
  unfold free_up_space
  rw [hres]
  rfl

lemma free_up_space_ok_not_full (cfg : Config) (w : World) (target : Path) (minGb : ℚ)
    (w2 : World) (h : free_up_space cfg w target minGb = Except.ok w2) :
    is_device_full w2 target minGb = false := by
  have heq := free_up_space_eq cfg w target minGb
  rw [h] at heq
  exact fuel_ok_not_full cfg _ w target minGb w2 heq

lemma free_up_space_preserves_ok (cfg : Config) (w : World) (target : Path) (minGb : ℚ)
    (w2 : World) (h : free_up_space cfg w target minGb = Except.ok w2) :
    sameMount w2 w ∧ w2.cursor = w.cursor := by
  have heq := free_up_space_eq cfg w target minGb
  rw [h] at heq
  exact (fuel_preserves cfg _ w target minGb _ heq).1 w2 rfl

lemma free_up_space_preserves_error (cfg : Config) (w : World) (target : Path) (minGb : ℚ)
    (e : RecErr) (we : World)
    (h : free_up_space cfg w target minGb = Except.error (e, we)) :
    sameMount we w ∧ we.cursor = w.cursor := by
  have heq := free_up_space_eq cfg w target minGb
  rw [h] at heq
  exact (fuel_preserves cfg _ w target minGb _ heq).2 e we rfl

lemma get_usb_devices_congr (cfg : Config) {a b : World} (h : sameMount a b) :
    get_usb_devices cfg a = get_usb_devices cfg b := by
  unfold get_usb_devices
  rw [h.1, h.2.1, h.2.2]

lemma parentPath_pathJoin (p : Path) (s : String) : parentPath (pathJoin p s) = p := by
  unfold parentPath pathJoin
  exact List.dropLast_concat

lemma is_device_full_advanceCursor (w : World) (p : Path) (m : ℚ) :
    is_device_full (advanceCursor w) p m = is_device_full w p m := rfl

lemma isEmpty_false_of_pos {l : List Path} (h : 0 < l.length) : l.isEmpty = false := by
  cases l with
  | nil => simp at h
  | cons a t => rfl

lemma isEmpty_true_of_not_pos {l : List Path} (h : ¬0 < l.length) : l.isEmpty = true := by
  cases l with
  | nil => rfl
  | cons a t => exact absurd (Nat.succ_pos _) h

/-- Branch equation of the allocator: removable volumes present, selected
device not full — return its Recordings directory, cursor advanced. -/
lemma gnr_usb_notfull (cfg : Config) (w : World)
    (hne : 0 < (get_usb_devices cfg w).length)
    (hfull : is_device_full w
      ((get_usb_devices cfg w).get
        ⟨w.cursor % (get_usb_devices cfg w).length, Nat.mod_lt _ hne⟩)
      cfg.minFreeSpaceGb = false) :
    get_next_recording_dir cfg w = Except.ok
      (pathJoin
        ((get_usb_devices cfg w).get
          ⟨w.cursor % (get_usb_devices cfg w).length, Nat.mod_lt _ hne⟩)
        "Recordings", advanceCursor w) := by
  simp only [get_next_recording_dir]
  rw [dif_pos hne, hfull]
  simp

/-- Branch equation of the allocator: removable volumes present, selected
device full — the result is whatever retention on that device yields. -/
lemma gnr_usb_full (cfg : Config) (w : World)
    (hne : 0 < (get_usb_devices cfg w).length)
    (hfull : is_device_full w
      ((get_usb_devices cfg w).get
        ⟨w.cursor % (get_usb_devices cfg w).length, Nat.mod_lt _ hne⟩)
      cfg.minFreeSpaceGb = true) :
    get_next_recording_dir cfg w =
      match free_up_space cfg w
        ((get_usb_devices cfg w).get
          ⟨w.cursor % (get_usb_devices cfg w).length, Nat.mod_lt _ hne⟩)
        cfg.minFreeSpaceGb with
      | Except.error ew => Except.error ew
      | Except.ok w2 =>
        Except.ok
          (pathJoin
            ((get_usb_devices cfg w).get
              ⟨w.cursor % (get_usb_devices cfg w).length, Nat.mod_lt _ hne⟩)
            "Recordings", advanceCursor w2) := by
  simp only [get_next_recording_dir]
  rw [dif_pos hne, if_pos hfull]

/-- Branch equation of the allocator: no removable volume. -/
lemma gnr_primary (cfg : Config) (w : World)
    (hne : ¬0 < (get_usb_devices cfg w).length) :
    get_next_recording_dir cfg w =
      if is_device_full w (parentPath cfg.recordingsDir) cfg.minFreeSpaceGb then
        match free_up_space cfg w (parentPath cfg.recordingsDir) cfg.minFreeSpaceGb with
        | Except.error ew => Except.error ew
        | Except.ok w2 => Except.ok (cfg.recordingsDir, w2)
      else Except.ok (cfg.recordingsDir, w) := by
  simp only [get_next_recording_dir]
  rw [dif_neg hne]

/-- Claim C1: whenever `get_next_recording_dir` returns a directory, the
volume containing that directory is not below the free-space threshold in
the world at the moment of return. -/
theorem alloc_threshold_invariant (cfg : Config) (w : World) (p : Path) (w2 : World)
    (h : get_next_recording_dir cfg w = Except.ok (p, w2)) :
    is_device_full w2 (parentPath p) cfg.minFreeSpaceGb = false := by
  by_cases hne : 0 < (get_usb_devices cfg w).length
  · by_cases hfull : is_device_full w
        ((get_usb_devices cfg w).get
          ⟨w.cursor % (get_usb_devices cfg w).length, Nat.mod_lt _ hne⟩)
        cfg.minFreeSpaceGb = true
    · rw [gnr_usb_full cfg w hne hfull] at h
      cases hfs : free_up_space cfg w
          ((get_usb_devices cfg w).get
            ⟨w.cursor % (get_usb_devices cfg w).length, Nat.mod_lt _ hne⟩)
          cfg.minFreeSpaceGb with
      | error ew => rw [hfs] at h; exact absurd h (by simp)
      | ok w3 =>
        rw [hfs] at h
        dsimp only at h
        simp only [Except.ok.injEq, Prod.mk.injEq] at h
        rw [← h.1, ← h.2, parentPath_pathJoin, is_device_full_advanceCursor]
        exact free_up_space_ok_not_full cfg w _ _ w3 hfs
    · rw [Bool.not_eq_true] at hfull
      rw [gnr_usb_notfull cfg w hne hfull] at h
      simp only [Except.ok.injEq, Prod.mk.injEq] at h
      rw [← h.1, ← h.2, parentPath_pathJoin, is_device_full_advanceCursor]
      exact hfull
  · rw [gnr_primary cfg w hne] at h
    by_cases hfull : is_device_full w (parentPath cfg.recordingsDir)
        cfg.minFreeSpaceGb = true
    · rw [if_pos hfull] at h
      cases hfs : free_up_space cfg w (parentPath cfg.recordingsDir)
          cfg.minFreeSpaceGb with
      | error ew => rw [hfs] at h; exact absurd h (by simp)
      | ok w3 =>
        rw [hfs] at h
        dsimp only at h
        simp only [Except.ok.injEq, Prod.mk.injEq] at h
        rw [← h.1, ← h.2]
        exact free_up_space_ok_not_full cfg w _ _ w3 hfs
    · rw [if_neg hfull] at h
      simp only [Except.ok.injEq, Prod.mk.injEq] at h
      rw [← h.1, ← h.2, Bool.not_eq_true] at *
      exact hfull

/-- Claim C4: with the target below threshold and no eligible segment
anywhere in the catalog, `free_up_space` raises the insufficient-storage
error with the filesystem unchanged: the error world is the entry world. -/
theorem free_up_space_exhaustion (cfg : Config) (w : World) (target : Path) (minGb : ℚ)
    (hfull : is_device_full w target minGb = true)
    (hempty : scanFiles cfg w = []) :
    free_up_space cfg w target minGb =
      Except.error (RecErr.insufficientStorage, w) := by
  have hfind : find_oldest_recording cfg w = none := by
    rw [find_oldest_eq, hempty]
    rfl
  have hstep : free_up_spaceFuel cfg (countTotal w + 1) w target minGb =
      some (Except.error (RecErr.insufficientStorage, w)) := by
    unfold free_up_spaceFuel
    rw [if_pos hfull, hfind]
  have heq := free_up_space_eq cfg w target minGb
  rw [hstep] at heq
  exact (Option.some.inj heq).symm

/-- Claim C8: the retention loop terminates within `countTotal` steps —
with fuel above the catalogued file count the fueled loop never runs out,
and the outcome is a world above threshold, an insufficient-storage error,
or a delete-failure error. -/
theorem free_up_space_terminates (cfg : Config) (w : World) (target : Path) (minGb : ℚ)
    (fuel : ℕ) (h : countTotal w < fuel) :
    ∃ res, free_up_spaceFuel cfg fuel w target minGb = some res ∧
      ((∃ w2, res = Except.ok w2 ∧ is_device_full w2 target minGb = false) ∨
        (∃ we, res = Except.error (RecErr.insufficientStorage, we)) ∨
        (∃ we, res = Except.error (RecErr.deleteFailure, we))) := by
  obtain ⟨res, hres⟩ := fuel_some cfg fuel w target minGb h
  refine ⟨res, hres, ?_⟩
  cases res with
  | ok w2 => exact Or.inl ⟨w2, rfl, fuel_ok_not_full cfg fuel w target minGb w2 hres⟩
  | error ew =>
    obtain ⟨e, we⟩ := ew
    cases e with
    | insufficientStorage => exact Or.inr (Or.inl ⟨we, rfl⟩)
    | deleteFailure => exact Or.inr (Or.inr ⟨we, rfl⟩)

/-- Claim C9: a volume whose free bytes are exactly the threshold is not
full (the comparison is strict), and an allocation targeting it returns at
once with only the cursor changed — no eviction happens. -/
theorem boundary_returns_immediately (cfg : Config) (w : World)
    (hne : 0 < (get_usb_devices cfg w).length) (dev : Path)
    (hdev : dev = (get_usb_devices cfg w).get
      ⟨w.cursor % (get_usb_devices cfg w).length, Nat.mod_lt _ hne⟩)
    (heq : get_available_space_gb w dev = cfg.minFreeSpaceGb) :
    is_device_full w dev cfg.minFreeSpaceGb = false ∧
      get_next_recording_dir cfg w =
        Except.ok (pathJoin dev "Recordings", advanceCursor w) := by
  have hnotfull : is_device_full w dev cfg.minFreeSpaceGb = false := by
    unfold is_device_full
    rw [heq]
    simp
  refine ⟨hnotfull, ?_⟩
  rw [hdev] at hnotfull ⊢
  exact gnr_usb_notfull cfg w hne hnotfull

/-- Claim C5 (confirmed part): with removable volumes present, one single
candidate — the device at the cursor — is considered: an allocation error
is exactly a retention error on that device (it propagates, with no
fallback to the primary), and a success returns that device's Recordings
directory. -/
theorem single_removable_candidate (cfg : Config) (w : World)
    (hne : 0 < (get_usb_devices cfg w).length) (dev : Path)
    (hdev : dev = (get_usb_devices cfg w).get
      ⟨w.cursor % (get_usb_devices cfg w).length, Nat.mod_lt _ hne⟩) :
    (∀ e we, get_next_recording_dir cfg w = Except.error (e, we) →
      is_device_full w dev cfg.minFreeSpaceGb = true ∧
        free_up_space cfg w dev cfg.minFreeSpaceGb = Except.error (e, we)) ∧
    (∀ p w2, get_next_recording_dir cfg w = Except.ok (p, w2) →
      p = pathJoin dev "Recordings") := by
  subst hdev
  constructor
  · intro e we herr
    by_cases hfull : is_device_full w
        ((get_usb_devices cfg w).get
          ⟨w.cursor % (get_usb_devices cfg w).length, Nat.mod_lt _ hne⟩)
        cfg.minFreeSpaceGb = true
    · refine ⟨hfull, ?_⟩
      rw [gnr_usb_full cfg w hne hfull] at herr
      cases hfs : free_up_space cfg w
          ((get_usb_devices cfg w).get
            ⟨w.cursor % (get_usb_devices cfg w).length, Nat.mod_lt _ hne⟩)
          cfg.minFreeSpaceGb with
      | error ew =>
        rw [hfs] at herr
        dsimp only at herr
        simp only [Except.error.injEq] at herr
        rw [herr]
      | ok w3 => rw [hfs] at herr; exact absurd herr (by simp)
    · rw [Bool.not_eq_true] at hfull
      rw [gnr_usb_notfull cfg w hne hfull] at herr
      exact absurd herr (by simp)
  · intro p w2 hok
    by_cases hfull : is_device_full w
        ((get_usb_devices cfg w).get
          ⟨w.cursor % (get_usb_devices cfg w).length, Nat.mod_lt _ hne⟩)
        cfg.minFreeSpaceGb = true
    · rw [gnr_usb_full cfg w hne hfull] at hok
      cases hfs : free_up_space cfg w
          ((get_usb_devices cfg w).get
            ⟨w.cursor % (get_usb_devices cfg w).length, Nat.mod_lt _ hne⟩)
          cfg.minFreeSpaceGb with
      | error ew => rw [hfs] at hok; exact absurd hok (by simp)
      | ok w3 =>
        rw [hfs] at hok
        dsimp only at hok
        simp only [Except.ok.injEq, Prod.mk.injEq] at hok
        exact hok.1.symm
    · rw [Bool.not_eq_true] at hfull
      rw [gnr_usb_notfull cfg w hne hfull] at hok
      simp only [Except.ok.injEq, Prod.mk.injEq] at hok
      exact hok.1.symm

/-- Claim C2 (amended): the cursor advances by exactly one on precisely the
allocation calls that return a directory while removable volumes are
present; on failing calls, and on calls with no removable volume, the
module-level cursor keeps its value. -/
theorem cursor_advance_policy (cfg : Config) (w : World) :
    cursorAfter (get_next_recording_dir cfg w) =
      if isOkResult (get_next_recording_dir cfg w) &&
          !(get_usb_devices cfg w).isEmpty then w.cursor + 1 else w.cursor := by
  by_cases hne : 0 < (get_usb_devices cfg w).length
  · have hie := isEmpty_false_of_pos hne
    by_cases hfull : is_device_full w
        ((get_usb_devices cfg w).get
          ⟨w.cursor % (get_usb_devices cfg w).length, Nat.mod_lt _ hne⟩)
        cfg.minFreeSpaceGb = true
    · rw [gnr_usb_full cfg w hne hfull]
      cases hfs : free_up_space cfg w
          ((get_usb_devices cfg w).get
            ⟨w.cursor % (get_usb_devices cfg w).length, Nat.mod_lt _ hne⟩)
          cfg.minFreeSpaceGb with
      | error ew =>
        obtain ⟨e, we⟩ := ew
        have hc := (free_up_space_preserves_error cfg w _ _ e we hfs).2
        simp [cursorAfter, isOkResult, hie, hc]
      | ok w3 =>
        have hc := (free_up_space_preserves_ok cfg w _ _ w3 hfs).2
        simp [cursorAfter, isOkResult, hie, advanceCursor, hc]
    · rw [Bool.not_eq_true] at hfull
      rw [gnr_usb_notfull cfg w hne hfull]
      simp [cursorAfter, isOkResult, hie, advanceCursor]
  · have hie := isEmpty_true_of_not_pos hne
    rw [gnr_primary cfg w hne]
    by_cases hfull : is_device_full w (parentPath cfg.recordingsDir)
        cfg.minFreeSpaceGb = true
    · rw [if_pos hfull]
      cases hfs : free_up_space cfg w (parentPath cfg.recordingsDir)
          cfg.minFreeSpaceGb with
      | error ew =>
        obtain ⟨e, we⟩ := ew
        have hc := (free_up_space_preserves_error cfg w _ _ e we hfs).2
        simp [cursorAfter, isOkResult, hie, hc]
      | ok w3 =>
        have hc := (free_up_space_preserves_ok cfg w _ _ w3 hfs).2
        simp [cursorAfter, isOkResult, hie, hc]
    · rw [if_neg hfull]
      simp [cursorAfter, isOkResult, hie]

lemma strLtB_trans (a : List Char) : ∀ b c : List Char,
    strLtB a b = true → strLtB b c = true → strLtB a c = true := by
  induction a with
  | nil =>
    intro b c hab hbc
    cases c with
    | nil =>
      cases b with
      | nil => exact absurd hab (by simp [strLtB])
      | cons y ys => exact absurd hbc (by simp [strLtB])
    | cons z zs => rfl
  | cons x xs ih =>
    intro b c hab hbc
    cases b with
    | nil => exact absurd hab (by simp [strLtB])
    | cons y ys =>
      cases c with
      | nil => exact absurd hbc (by simp [strLtB])
      | cons z zs =>
        simp only [strLtB] at hab hbc ⊢
        by_cases hxy : x.toNat < y.toNat
        · by_cases hyz : y.toNat < z.toNat
          · rw [if_pos (by omega : x.toNat < z.toNat)]
          · by_cases hzy : z.toNat < y.toNat
            · rw [if_neg hyz, if_pos hzy] at hbc
              exact absurd hbc (by simp)
            · rw [if_pos (by omega : x.toNat < z.toNat)]
        · by_cases hyx : y.toNat < x.toNat
          · rw [if_neg hxy, if_pos hyx] at hab
            exact absurd hab (by simp)
          · rw [if_neg hxy, if_neg hyx] at hab
            by_cases hyz : y.toNat < z.toNat
            · rw [if_pos (by omega : x.toNat < z.toNat)]
            · by_cases hzy : z.toNat < y.toNat
              · rw [if_neg hyz, if_pos hzy] at hbc
                exact absurd hbc (by simp)
              · rw [if_neg hyz, if_neg hzy] at hbc
                rw [if_neg (by omega : ¬x.toNat < z.toNat),
                  if_neg (by omega : ¬z.toNat < x.toNat)]
                exact ih ys zs hab hbc

lemma strLtB_eq_of_not (a : List Char) : ∀ b : List Char,
    strLtB a b = false → strLtB b a = false → a = b := by
  induction a with
  | nil =>
    intro b h1 _
    cases b with
    | nil => rfl
    | cons y ys => exact absurd h1 (by simp [strLtB])
  | cons x xs ih =>
    intro b h1 h2
    cases b with
    | nil => exact absurd h2 (by simp [strLtB])
    | cons y ys =>
      simp only [strLtB] at h1 h2
      by_cases hxy : x.toNat < y.toNat
      · rw [if_pos hxy] at h1
        exact absurd h1 (by simp)
      · by_cases hyx : y.toNat < x.toNat
        · rw [if_pos hyx] at h2
          exact absurd h2 (by simp)
        · rw [if_neg hxy, if_neg hyx] at h1
          have hn : x.toNat = y.toNat := by omega
          unfold Char.toNat at hn
          have hchar : x = y := Char.eq_of_val_eq (UInt32.toNat.inj hn)
          rw [hchar, ih ys h1 (by rw [if_neg hyx, if_neg hxy] at h2; exact h2)]

lemma strLt_trans (x y z : String) (h1 : strLt x y = true) (h2 : strLt y z = true) :
    strLt x z = true :=
  strLtB_trans x.data y.data z.data h1 h2

lemma strLt_eq_of_not (x y : String) (h1 : strLt x y = false) (h2 : strLt y x = false) :
    x = y := by
  unfold strLt at h1 h2
  have hd := strLtB_eq_of_not x.data y.data h1 h2
  cases x
  cases y
  simp_all

lemma pathLe_total (a : Path) : ∀ b : Path, pathLe a b = true ∨ pathLe b a = true := by
  induction a with
  | nil => intro b; left; rfl
  | cons x xs ih =>
    intro b
    cases b with
    | nil => right; rfl
    | cons y ys =>
      by_cases hxy : strLt x y = true
      · left
        simp only [pathLe]
        rw [if_pos hxy]
      · by_cases hyx : strLt y x = true
        · right
          simp only [pathLe]
          rw [if_pos hyx]
        · rcases ih ys with h | h
          · left
            simp only [pathLe]
            rw [if_neg hxy, if_neg hyx]
            exact h
          · right
            simp only [pathLe]
            rw [if_neg hyx, if_neg hxy]
            exact h

lemma pathLe_trans (a : Path) : ∀ b c : Path,
    pathLe a b = true → pathLe b c = true → pathLe a c = true := by
  induction a with
  | nil => intro b c _ _; rfl
  | cons x xs ih =>
    intro b c hab hbc
    cases b with
    | nil => simp [pathLe] at hab
    | cons y ys =>
      cases c with
      | nil => simp [pathLe] at hbc
      | cons z zs =>
        simp only [pathLe] at hab hbc ⊢
        by_cases hxy : strLt x y = true
        · by_cases hyz : strLt y z = true
          · rw [if_pos (strLt_trans x y z hxy hyz)]

          · by_cases hzy : strLt z y = true
            · rw [if_neg hyz, if_pos hzy] at hbc
              exact absurd hbc (by simp)
            · rw [Bool.not_eq_true] at hyz hzy
              have hyz' : y = z := strLt_eq_of_not y z hyz hzy
              subst hyz'
              rw [if_pos hxy]
        · by_cases hyx : strLt y x = true
          · rw [if_neg hxy, if_pos hyx] at hab
            exact absurd hab (by simp)
          · rw [if_neg hxy, if_neg hyx] at hab
            rw [Bool.not_eq_true] at hxy hyx
            have hxy' : x = y := strLt_eq_of_not x y hxy hyx
            subst hxy'
            by_cases hxz : strLt x z = true
            · rw [if_pos hxz]
            · by_cases hzx : strLt z x = true
              · rw [if_neg hxz, if_pos hzx] at hbc
                exact absurd hbc (by simp)
              · rw [if_neg hxz, if_neg hzx] at hbc ⊢
                exact ih ys zs hab hbc

lemma insertPath_perm (x : Path) (l : List Path) :
    List.Perm (insertPath x l) (x :: l) := by
  induction l with
  | nil => exact List.Perm.refl _
  | cons y ys ih =>
    unfold insertPath
    by_cases h : pathLe x y = true
    · rw [if_pos h]
    · rw [if_neg h]
      exact (List.Perm.cons y ih).trans (List.Perm.swap x y ys)

lemma sortPaths_perm (l : List Path) : List.Perm (sortPaths l) l := by
  induction l with
  | nil => exact List.Perm.refl _
  | cons x xs ih =>
    unfold sortPaths
    exact (insertPath_perm x (sortPaths xs)).trans (List.Perm.cons x ih)

lemma insertPath_pairwise (x : Path) (l : List Path)
    (h : l.Pairwise (fun a b => pathLe a b = true)) :
    (insertPath x l).Pairwise (fun a b => pathLe a b = true) := by
  induction l with
  | nil => simp [insertPath]
  | cons y ys ih =>
    unfold insertPath
    rcases List.pairwise_cons.mp h with ⟨hy, hys⟩
    by_cases hxy : pathLe x y = true
    · rw [if_pos hxy]
      refine List.pairwise_cons.mpr ⟨?_, h⟩
      intro z hz
      rcases List.mem_cons.mp hz with rfl | hz'
      · exact hxy
      · exact pathLe_trans x y z hxy (hy z hz')
    · rw [if_neg hxy]
      have hyx : pathLe y x = true := (pathLe_total x y).resolve_left hxy
      refine List.pairwise_cons.mpr ⟨?_, ih hys⟩
      intro z hz
      have hz' := (insertPath_perm x ys).mem_iff.mp hz
      rcases List.mem_cons.mp hz' with rfl | hz''
      · exact hyx
      · exact hy z hz''

lemma sortPaths_pairwise (l : List Path) :
    (sortPaths l).Pairwise (fun a b => pathLe a b = true) := by
  induction l with
  | nil => simp [sortPaths]
  | cons x xs ih => exact insertPath_pairwise x (sortPaths xs) ih

lemma get_usb_devices_pairwise (cfg : Config) (w : World) :
    (get_usb_devices cfg w).Pairwise (fun a b => pathLe a b = true) := by
  unfold get_usb_devices
  cases hw : w.mountExists with
  | false => simp
  | true =>
    cases hr : w.mountReadable with
    | false =>
      simp only [Bool.not_true, Bool.false_eq_true, if_false, Bool.not_false, if_true]
      exact sortPaths_pairwise _
    | true =>
      simp only [Bool.not_true, Bool.false_eq_true, if_false]
      exact sortPaths_pairwise _

lemma idx_perm (c N : ℕ) (h : 0 < N) :
    List.Perm ((List.range N).map (fun k => (c + k) % N)) (List.range N) := by
  have hinj : ∀ x ∈ List.range N, ∀ y ∈ List.range N,
      (c + x) % N = (c + y) % N → x = y := by
    intro x hx y hy hmod
    have hx' := List.mem_range.mp hx
    have hy' := List.mem_range.mp hy
    have hcancel : x ≡ y [MOD N] := Nat.ModEq.add_left_cancel' c hmod
    unfold Nat.ModEq at hcancel
    rw [Nat.mod_eq_of_lt hx', Nat.mod_eq_of_lt hy'] at hcancel
    exact hcancel
  have hnodup : ((List.range N).map (fun k => (c + k) % N)).Nodup :=
    (List.nodup_range N).map_on hinj
  have hsub : (List.range N).map (fun k => (c + k) % N) ⊆ List.range N := by
    intro x hx
    obtain ⟨k, _, rfl⟩ := List.mem_map.mp hx
    exact List.mem_range.mpr (Nat.mod_lt _ h)
  obtain ⟨l', hl'perm, hl'sub⟩ := hnodup.subperm hsub
  have hlen : l'.length = (List.range N).length := by
    rw [hl'perm.length_eq]
    simp
  have hl' : l' = List.range N := hl'sub.eq_of_length hlen
  rw [hl'] at hl'perm
  exact hl'perm.symm

lemma map_getD_range (l : List Path) :
    (List.range l.length).map (fun i => l.getD i ([] : Path)) = l := by
  induction l with
  | nil => rfl
  | cons a t ih =>
    rw [List.length_cons, List.range_succ_eq_map, List.map_cons, List.map_map]
    have hcomp : ((fun i => (a :: t).getD i ([] : Path)) ∘ Nat.succ) =
        (fun i => t.getD i ([] : Path)) := by
      funext i
      rfl
    rw [hcomp, ih]
    rfl

/-- A successful allocation with removable volumes present returns the
cursor-selected device's Recordings directory, advances the cursor by one,
and leaves the device catalog unchanged. -/
lemma gnr_ok_usb (cfg : Config) (w : World) (p : Path) (w2 : World)
    (hne : 0 < (get_usb_devices cfg w).length)
    (hok : get_next_recording_dir cfg w = Except.ok (p, w2)) :
    p = pathJoin ((get_usb_devices cfg w).get
        ⟨w.cursor % (get_usb_devices cfg w).length, Nat.mod_lt _ hne⟩) "Recordings" ∧
      w2.cursor = w.cursor + 1 ∧ get_usb_devices cfg w2 = get_usb_devices cfg w := by
  by_cases hfull : is_device_full w
      ((get_usb_devices cfg w).get
        ⟨w.cursor % (get_usb_devices cfg w).length, Nat.mod_lt _ hne⟩)
      cfg.minFreeSpaceGb = true
  · rw [gnr_usb_full cfg w hne hfull] at hok
    cases hfs : free_up_space cfg w
        ((get_usb_devices cfg w).get
          ⟨w.cursor % (get_usb_devices cfg w).length, Nat.mod_lt _ hne⟩)
        cfg.minFreeSpaceGb with
    | error ew => rw [hfs] at hok; exact absurd hok (by simp)
    | ok w3 =>
      rw [hfs] at hok
      dsimp only at hok
      simp only [Except.ok.injEq, Prod.mk.injEq] at hok
      have hpres := free_up_space_preserves_ok cfg w _ _ w3 hfs
      refine ⟨hok.1.symm, ?_, ?_⟩
      · rw [← hok.2]
        show w3.cursor + 1 = w.cursor + 1
        rw [hpres.2]
      · rw [← hok.2]
        exact get_usb_devices_congr cfg (sameMount_trans ⟨rfl, rfl, rfl⟩ hpres.1)
  · rw [Bool.not_eq_true] at hfull
    rw [gnr_usb_notfull cfg w hne hfull] at hok
    simp only [Except.ok.injEq, Prod.mk.injEq] at hok
    refine ⟨hok.1.symm, ?_, ?_⟩
    · rw [← hok.2]; rfl
    · rw [← hok.2]
      exact get_usb_devices_congr cfg ⟨rfl, rfl, rfl⟩

lemma allocRun_formula (cfg : Config) :
    ∀ (n : ℕ) (w : World) (ps : List Path) (wf : World),
      0 < (get_usb_devices cfg w).length →
      allocRun cfg n w = some (ps, wf) →
      ps = (List.range n).map (fun k =>
        pathJoin ((get_usb_devices cfg w).getD
          ((w.cursor + k) % (get_usb_devices cfg w).length) []) "Recordings") := by
  intro n
  induction n with
  | zero =>
    intro w ps wf _ h
    simp only [allocRun, Option.some.injEq, Prod.mk.injEq] at h
    rw [← h.1]
    rfl
  | succ n ih =>
    intro w ps wf hne h
    unfold allocRun at h
    cases hg : get_next_recording_dir cfg w with
    | error ew => rw [hg] at h; simp at h
    | ok pw =>
      rw [hg] at h
      dsimp only at h
      obtain ⟨p, w2⟩ := pw
      cases hrun : allocRun cfg n w2 with
      | none => rw [hrun] at h; simp at h
      | some pr =>
        rw [hrun] at h
        obtain ⟨ps', wf'⟩ := pr
        have h2 : p :: ps' = ps ∧ wf' = wf := by
          have := h
          simp only [Option.map, Option.some.injEq, Prod.mk.injEq] at this
          exact this
        obtain ⟨hp, hcur, husb⟩ := gnr_ok_usb cfg w p w2 hne hg
        have hne2 : 0 < (get_usb_devices cfg w2).length := by rw [husb]; exact hne
        have hih := ih w2 ps' wf' hne2 hrun
        rw [← h2.1, List.range_succ_eq_map, List.map_cons, List.map_map]
        congr 1
        · rw [hp, Nat.add_zero]
          congr 1
          exact (List.getD_eq_get _ _ _).symm
        · rw [hih, husb, hcur]
          apply List.map_congr_left
          intro k _
          have harith : w.cursor + 1 + k = w.cursor + Nat.succ k := by omega
          simp only [Function.comp]
          rw [harith]

/-- Claim C7: with removable volumes present and `N` the catalog size, `N`
consecutive successful allocation calls return the Recordings directory of
the device at cursor positions `cursor, cursor+1, …` (cyclically through
the sorted catalog), and the returned list is a permutation of the whole
catalog's Recordings directories — each volume exactly once — while the
catalog itself is sorted by the componentwise path order. -/
theorem round_robin_fairness (cfg : Config) (w : World) (N : ℕ) (ps : List Path)
    (wf : World) (hN : (get_usb_devices cfg w).length = N) (hpos : 0 < N)
    (hrun : allocRun cfg N w = some (ps, wf)) :
    ps = (List.range N).map (fun k =>
      pathJoin ((get_usb_devices cfg w).getD ((w.cursor + k) % N) []) "Recordings") ∧
    List.Perm ps ((get_usb_devices cfg w).map (fun d => pathJoin d "Recordings")) ∧
    (get_usb_devices cfg w).Pairwise (fun a b => pathLe a b = true) := by
  have hne : 0 < (get_usb_devices cfg w).length := hN ▸ hpos
  have hform := allocRun_formula cfg N w ps wf hne hrun
  rw [hN] at hform
  refine ⟨hform, ?_, get_usb_devices_pairwise cfg w⟩
  rw [hform]
  have hstep1 : (List.range N).map (fun k =>
      pathJoin ((get_usb_devices cfg w).getD ((w.cursor + k) % N) []) "Recordings") =
      ((List.range N).map (fun k => (w.cursor + k) % N)).map
        (fun i => pathJoin ((get_usb_devices cfg w).getD i []) "Recordings") := by
    rw [List.map_map]
    rfl
  rw [hstep1]
  have hperm := (idx_perm w.cursor N hpos).map
    (fun i => pathJoin ((get_usb_devices cfg w).getD i []) "Recordings")
  refine hperm.trans ?_
  have hstep2 : (List.range N).map
      (fun i => pathJoin ((get_usb_devices cfg w).getD i []) "Recordings") =
      ((List.range N).map (fun i => (get_usb_devices cfg w).getD i [])).map
        (fun d => pathJoin d "Recordings") := by
    rw [List.map_map]
    rfl
  rw [hstep2, ← hN, map_getD_range]

/-- Claim C3: a retention iteration on a full target deletes exactly the
file found by the cross-volume scan, and that file decomposes the scan list
as the first file attaining the minimum modification time: every file
before it in scan order is strictly younger, and no file anywhere in the
scan is older. -/
theorem retention_deletes_global_oldest (cfg : Config) (w : World) (fuel : ℕ)
    (target : Path) (minGb : ℚ) (r : FileRef)
    (hfull : is_device_full w target minGb = true)
    (hfind : find_oldest_recording cfg w = some r)
    (hdel : r.file.deletable = true) :
    free_up_spaceFuel cfg (fuel + 1) w target minGb =
      free_up_spaceFuel cfg fuel (unlink w r) target minGb ∧
    (∃ pre post, scanFiles cfg w = pre ++ r :: post ∧
      ∀ s ∈ pre, r.file.mtime < s.file.mtime) ∧
    (∀ s ∈ scanFiles cfg w, r.file.mtime ≤ s.file.mtime) := by
  rw [find_oldest_eq] at hfind
  obtain ⟨pre, post, hdec, hpre, hmin⟩ := listOldest_spec _ _ hfind
  refine ⟨?_, ⟨pre, post, hdec, hpre⟩, hmin⟩
  conv_lhs => rw [free_up_spaceFuel]
  rw [if_pos hfull, find_oldest_eq, hfind]
  dsimp only
  rw [if_pos hdel]

/-- Claim C10: the retention scan places every removable volume's files
before the primary directory's files, so whenever a file on a removable
volume attains the global minimum modification time, the selected victim is
a file on a removable volume (with that same minimal mtime) — never the
primary's copy of the tie. -/
theorem removable_evicted_before_primary (cfg : Config) (w : World) (r : FileRef)
    (hr : r ∈ removableScanFiles cfg w)
    (hmin : ∀ s ∈ scanFiles cfg w, r.file.mtime ≤ s.file.mtime) :
    ∃ q, find_oldest_recording cfg w = some q ∧ q ∈ removableScanFiles cfg w ∧
      q.file.mtime = r.file.mtime := by
  have hsplit := scan_split cfg w
  have hrs : r ∈ scanFiles cfg w := by
    rw [hsplit]
    exact List.mem_append_left _ hr
  obtain ⟨q, hq⟩ : ∃ q, listOldest (scanFiles cfg w) = some q := by
    cases hsc : scanFiles cfg w with
    | nil => rw [hsc] at hrs; exact absurd hrs (List.not_mem_nil _)
    | cons a t => exact ⟨runBest a t, rfl⟩
  obtain ⟨pre, post, hdec, hpre, hminq⟩ := listOldest_spec _ _ hq
  have hqmem : q ∈ scanFiles cfg w := by
    rw [hdec]
    exact List.mem_append_right _ (List.mem_cons_self _ _)
  have hqr : q.file.mtime = r.file.mtime := le_antisymm (hminq r hrs) (hmin q hqmem)
  refine ⟨q, by rw [find_oldest_eq]; exact hq, ?_, hqr⟩
  have hrnp : r ∉ pre := by
    intro hrp
    have := hpre r hrp
    rw [hqr] at this
    exact lt_irrefl _ this
  have hRpre : removableScanFiles cfg w <+: scanFiles cfg w := by
    rw [hsplit]
    exact List.prefix_append _ _
  have hPrePre : pre <+: scanFiles cfg w := by
    rw [hdec]
    exact List.prefix_append _ _
  by_cases hlen : (removableScanFiles cfg w).length ≤ pre.length
  · exfalso
    have hsub : removableScanFiles cfg w <+: pre :=
      List.prefix_of_prefix_length_le hRpre hPrePre hlen
    exact hrnp (hsub.subset hr)
  · push_neg at hlen
    have hsub : pre <+: removableScanFiles cfg w :=
      List.prefix_of_prefix_length_le hPrePre hRpre (le_of_lt hlen)
    obtain ⟨tail, htail⟩ := hsub
    have htl : 0 < tail.length := by
      have hlen2 := congrArg List.length htail
      rw [List.length_append] at hlen2
      omega
    cases tail with
    | nil => simp at htl
    | cons t ts =>
      have hS : pre ++ (t :: (ts ++ dirFiles w cfg.recordingsDir)) = pre ++ q :: post := by
        rw [← hdec, hsplit, ← htail]
        simp [List.append_assoc]
      have hcons := List.append_cancel_left hS
      have htq : t = q := ((List.cons.injEq _ _ _ _).mp hcons).1
      rw [← htail, ← htq]
      exact List.mem_append_right _ (List.mem_cons_self _ _)

/-- The world of the numerical counterexample: a volume with exactly one
free byte. -/
def w6 : World := ⟨true, true, [], [], [(["vol"], 1)], 0⟩

/-- The path queried in the numerical counterexample. -/
def p6 : Path := ["vol"]

/-- Claim C6 (counterexample): the free-space query does not return the
free bytes as an integer — with one byte free it returns the fractional
quotient `1 / 1024³` gigabytes, which equals no integer at all. -/
theorem space_gb_not_integer :
    get_available_space_gb w6 p6 = 1 / 1024 ^ 3 ∧
      ¬∃ n : ℤ, get_available_space_gb w6 p6 = (n : ℚ) := by
  have h0 : get_available_space_gb w6 p6 = 1 / 1024 ^ 3 := by
    unfold get_available_space_gb diskFree w6 p6
    norm_num [assocFree]
  refine ⟨h0, ?_⟩
  rintro ⟨n, hn⟩
  rw [h0] at hn
  have h2 : (1 : ℚ) = (n : ℚ) * 1024 ^ 3 := by
    field_simp at hn
    linarith
  have h3 : (1 : ℤ) = n * 1024 ^ 3 := by exact_mod_cast h2
  have h4 : (1 : ℤ) = n * 1073741824 := by
    norm_num at h3
    linarith
  omega

/-- Claim C6 (amended): the free-space value is the exact rational quotient
`freeBytes / 1024³`, and the strict fullness comparison on that quotient is
equivalent to the exact integer comparison `freeBytes < minGb·1024³` — no
integer byte count is ever produced. -/
theorem is_device_full_exact (w : World) (p : Path) (m : ℚ) :
    is_device_full w p m = decide ((diskFree w p : ℚ) < m * 1024 ^ 3) := by
  unfold is_device_full get_available_space_gb
  rw [decide_eq_decide]
  constructor
  · intro h
    exact (div_lt_iff (by norm_num : (0 : ℚ) < 1024 ^ 3)).mp h
  · intro h
    exact (div_lt_iff (by norm_num : (0 : ℚ) < 1024 ^ 3)).mpr h

/-- The configuration used by the concrete test worlds. -/
def cfgC2 : Config := ⟨["home", "Desktop", "Recordings"], 2, ["media"]⟩

/-- A world with one removable volume that is full (zero free bytes) and an
empty Recordings tree: retention has nothing to delete, so allocation
fails. -/
def wC2 : World :=
  ⟨true, true, [⟨"pi", true, true, [⟨"usb0", true, true⟩]⟩],
    [(["media", "pi", "usb0", "Recordings"], ⟨true, true, []⟩)],
    [(["media", "pi", "usb0"], 0)], 0⟩

/-- Claim C2 (counterexample): on an allocation call whose retention
enforcement fails, the cursor is NOT advanced by one — it keeps its old
value, so the same full device is retried by the next call. -/
theorem cursor_not_advanced_on_failure :
    cursorAfter (get_next_recording_dir cfgC2 wC2) ≠ wC2.cursor + 1 := by
  with_unfolding_all decide

/-- A world with one healthy removable volume (3 GiB free, above the 2 GB
threshold) and an empty Recordings tree. -/
def wW1 : World :=
  ⟨true, true, [⟨"pi", true, true, [⟨"usb0", true, true⟩]⟩],
    [(["media", "pi", "usb0", "Recordings"], ⟨true, true, []⟩)],
    [(["media", "pi", "usb0"], 3221225472)], 0⟩

theorem alloc_threshold_invariant_witness :
    is_device_full (advanceCursor wW1)
      (parentPath (pathJoin ["media", "pi", "usb0"] "Recordings"))
      cfgC2.minFreeSpaceGb = false :=
  alloc_threshold_invariant cfgC2 wW1 (pathJoin ["media", "pi", "usb0"] "Recordings")
    (advanceCursor wW1) (by with_unfolding_all rfl)

/-- The oldest segment of the mixed test world: on the primary volume. -/
def fOld : RecFile := ⟨"a.h264", true, ".h264", 3, 100, true⟩

/-- The younger segment of the mixed test world: on the removable volume. -/
def fNew : RecFile := ⟨"b.h264", true, ".h264", 5, 200, true⟩

/-- A world with a full removable volume holding a young segment while the
primary holds the globally oldest segment. -/
def wT : World :=
  ⟨true, true, [⟨"pi", true, true, [⟨"usb0", true, true⟩]⟩],
    [(["media", "pi", "usb0", "Recordings"],
        ⟨true, true, [⟨"2024-01-01", true, true, [fNew]⟩]⟩),
      (["home", "Desktop", "Recordings"],
        ⟨true, true, [⟨"2024-01-01", true, true, [fOld]⟩]⟩)],
    [(["media", "pi", "usb0"], 0)], 0⟩

/-- The reference to the globally oldest segment of `wT`. -/
def rT : FileRef := ⟨["home", "Desktop", "Recordings"], "2024-01-01", fOld⟩

theorem retention_deletes_global_oldest_witness :
    free_up_spaceFuel cfgC2 (1 + 1) wT ["media", "pi", "usb0"] 2 =
      free_up_spaceFuel cfgC2 1 (unlink wT rT) ["media", "pi", "usb0"] 2 ∧
    (∃ pre post, scanFiles cfgC2 wT = pre ++ rT :: post ∧
      ∀ s ∈ pre, rT.file.mtime < s.file.mtime) ∧
    (∀ s ∈ scanFiles cfgC2 wT, rT.file.mtime ≤ s.file.mtime) :=
  retention_deletes_global_oldest cfgC2 wT 1 ["media", "pi", "usb0"] 2 rT
    (by with_unfolding_all decide) (by with_unfolding_all rfl) rfl

theorem free_up_space_exhaustion_witness :
    free_up_space cfgC2 wC2 ["media", "pi", "usb0"] 2 =
      Except.error (RecErr.insufficientStorage, wC2) :=
  free_up_space_exhaustion cfgC2 wC2 ["media", "pi", "usb0"] 2
    (by with_unfolding_all decide) (by with_unfolding_all rfl)

theorem single_removable_candidate_witness :
    is_device_full wC2 ["media", "pi", "usb0"] cfgC2.minFreeSpaceGb = true ∧
      free_up_space cfgC2 wC2 ["media", "pi", "usb0"] cfgC2.minFreeSpaceGb =
        Except.error (RecErr.insufficientStorage, wC2) :=
  (single_removable_candidate cfgC2 wC2 (by with_unfolding_all decide)
      ["media", "pi", "usb0"] (by with_unfolding_all rfl)).1
    RecErr.insufficientStorage wC2 (by with_unfolding_all rfl)

/-- A world with two healthy removable volumes, listed unsorted in the
mount directory. -/
def wR : World :=
  ⟨true, true, [⟨"pi", true, true, [⟨"usbB", true, true⟩, ⟨"usbA", true, true⟩]⟩],
    [(["media", "pi", "usbA", "Recordings"], ⟨true, true, []⟩),
      (["media", "pi", "usbB", "Recordings"], ⟨true, true, []⟩)],
    [(["media", "pi", "usbA"], 3221225472), (["media", "pi", "usbB"], 3221225472)], 0⟩

/-- The directories handed out by two consecutive calls on `wR`. -/
def psR : List Path :=
  [["media", "pi", "usbA", "Recordings"], ["media", "pi", "usbB", "Recordings"]]

/-- The world after the two calls on `wR`: only the cursor moved. -/
def wfR : World := advanceCursor (advanceCursor wR)

theorem round_robin_fairness_witness :
    psR = (List.range 2).map (fun k =>
      pathJoin ((get_usb_devices cfgC2 wR).getD ((wR.cursor + k) % 2) []) "Recordings") ∧
    List.Perm psR ((get_usb_devices cfgC2 wR).map (fun d => pathJoin d "Recordings")) ∧
    (get_usb_devices cfgC2 wR).Pairwise (fun a b => pathLe a b = true) :=
  round_robin_fairness cfgC2 wR 2 psR wfR (by with_unfolding_all rfl) (by decide)
    (by with_unfolding_all rfl)

theorem free_up_space_terminates_witness :
    ∃ res, free_up_spaceFuel cfgC2 1 wC2 ["media", "pi", "usb0"] 2 = some res ∧
      ((∃ w2, res = Except.ok w2 ∧
          is_device_full w2 ["media", "pi", "usb0"] 2 = false) ∨
        (∃ we, res = Except.error (RecErr.insufficientStorage, we)) ∨
        (∃ we, res = Except.error (RecErr.deleteFailure, we))) :=
  free_up_space_terminates cfgC2 wC2 ["media", "pi", "usb0"] 2 1
    (by with_unfolding_all decide)

/-- A world whose removable volume has exactly the threshold free
(2 · 1024³ bytes). -/
def wB : World :=
  ⟨true, true, [⟨"pi", true, true, [⟨"usb0", true, true⟩]⟩],
    [(["media", "pi", "usb0", "Recordings"], ⟨true, true, []⟩)],
    [(["media", "pi", "usb0"], 2147483648)], 0⟩

theorem boundary_returns_immediately_witness :
    is_device_full wB ["media", "pi", "usb0"] cfgC2.minFreeSpaceGb = false ∧
      get_next_recording_dir cfgC2 wB =
        Except.ok (pathJoin ["media", "pi", "usb0"] "Recordings", advanceCursor wB) :=
  boundary_returns_immediately cfgC2 wB (by with_unfolding_all decide)
    ["media", "pi", "usb0"] (by with_unfolding_all rfl) (by with_unfolding_all rfl)

/-- The removable half of an mtime tie. -/
def fR5 : RecFile := ⟨"r.h264", true, ".h264", 5, 10, true⟩

/-- The primary half of an mtime tie. -/
def fP5 : RecFile := ⟨"p.h264", true, ".h264", 5, 10, true⟩

/-- A world where a removable segment and a primary segment share the
minimal modification time. -/
def wTie : World :=
  ⟨true, true, [⟨"pi", true, true, [⟨"usb0", true, true⟩]⟩],
    [(["media", "pi", "usb0", "Recordings"],
        ⟨true, true, [⟨"2024-01-01", true, true, [fR5]⟩]⟩),
      (["home", "Desktop", "Recordings"],
        ⟨true, true, [⟨"2024-01-01", true, true, [fP5]⟩]⟩)],
    [(["media", "pi", "usb0"], 0)], 0⟩

/-- The removable member of the tie in `wTie`. -/
def rTie : FileRef := ⟨["media", "pi", "usb0", "Recordings"], "2024-01-01", fR5⟩

theorem removable_evicted_before_primary_witness :
    ∃ q, find_oldest_recording cfgC2 wTie = some q ∧
      q ∈ removableScanFiles cfgC2 wTie ∧ q.file.mtime = rTie.file.mtime :=
  removable_evicted_before_primary cfgC2 wTie rTie (by with_unfolding_all decide)
    (by with_unfolding_all decide)

end Recorder
